import Mathlib

/-!
Verification development for the perspective view/context engine excerpt.

The embedded code is `src/cpp/perspective/src/cpp/context_unit.cpp`
(the unpivoted context variant `t_ctxunit`) and
`src/packages/perspective/src/js/websocket.js` (the websocket transport
collaborator).  Pure data/state manipulation is embedded as Lean functions;
the process-aborting macro `PSP_COMPLAIN_AND_ABORT` is embedded as an
`Option` result where `none` means the process aborted.
-/

namespace Perspective

/-- Scalar values (`t_tscalar`).  Modelled from the spec: the concrete
scalar struct lives in `scalar.cpp`/`scalar.h`, which are not under `src/`.
The spec's data model says a scalar is "a tagged value (one of a fixed set
of primitive kinds, plus a distinguished none/null and a distinguished
clear/unset sentinel)".  `value` stands for any valid tagged payload,
`none_scalar` is the "none" scalar produced by `mknone()`, and `unset` is
the invalid/cleared sentinel for which `is_valid()` is false. -/
inductive t_tscalar where
  | value (v : Int)
  | none_scalar
  | unset
deriving DecidableEq

/-- Modelled from the spec: `t_tscalar::is_valid()` is defined in
`scalar.cpp`, not under `src/`.  A stored payload and the "none" scalar are
valid; the cleared/unset sentinel is the one invalid state. -/
def t_tscalar.is_valid : t_tscalar → Bool
  | t_tscalar.value _ => true
  | t_tscalar.none_scalar => true
  | t_tscalar.unset => false

/-- Modelled from the spec: `mknone()` (from `none.cpp`, not under `src/`)
builds the distinguished "none" scalar used to normalize invalid cells. -/
def mknone : t_tscalar := t_tscalar.none_scalar

/-- Modelled from the spec: the master state `t_gstate`
(`gnode_state.cpp` is not under `src/`).  The spec says it is "the
canonical columnar dataset keyed by primary key"; for the context claims we
only need its row count, its ordered column names, and the two cell-read
access paths used by `t_ctxunit::get_data` (`read_column` by row position
and `read_column` by primary key).  Cells are abstract total functions: the
claims settled here depend only on the shape of what `get_data` returns,
not on which row a cell comes from. -/
structure t_gstate where
  nrows : Nat
  columns : List String
  cell_by_row : String → Int → t_tscalar
  cell_by_pkey : String → t_tscalar → t_tscalar

/-- `t_gstate::num_rows()`. -/
def t_gstate.num_rows (g : t_gstate) : Nat := g.nrows

/-- `t_gstate::num_columns()`. -/
def t_gstate.num_columns (g : t_gstate) : Nat := g.columns.length

/-- The unpivoted context `t_ctxunit` (context_unit.cpp).  `m_delta_pkeys`
is a `tsl::hopscotch_set<t_tscalar>`: we model it as a duplicate-free list
(insertion keeps the first occurrence only), which captures the set's
membership semantics and fixes one concrete iteration order.
`m_symtable.get_interned_tscalar` is modelled as the abstract function
`m_symtable` (the symbol table `sym_table.cpp` is not under `src/`; per the
spec it maps a scalar to a stable handle consistent with value equality). -/
structure t_ctxunit where
  m_init : Bool
  m_has_delta : Bool
  m_rows_changed : Bool
  m_columns_changed : Bool
  m_delta_pkeys : List t_tscalar
  m_symtable : t_tscalar → t_tscalar
  m_gstate : t_gstate

/-- `t_ctxunit::init()` (context_unit.cpp:30-33). -/
def t_ctxunit.init (ctx : t_ctxunit) : t_ctxunit :=
  { ctx with m_init := true }

/-- `t_ctxunit::step_begin()` (context_unit.cpp:43-51): a no-op before
`init()`; otherwise clears the delta key set and the two changed flags. -/
def t_ctxunit.step_begin (ctx : t_ctxunit) : t_ctxunit :=
  if ctx.m_init = false then ctx
  else { ctx with
           m_delta_pkeys := [],
           m_rows_changed := false,
           m_columns_changed := false }

/-- `t_ctxunit::get_row_count()` (context_unit.cpp:56-59). -/
def t_ctxunit.get_row_count (ctx : t_ctxunit) : Nat :=
  ctx.m_gstate.num_rows

/-- `t_ctxunit::get_column_count()` (context_unit.cpp:61-64). -/
def t_ctxunit.get_column_count (ctx : t_ctxunit) : Nat :=
  ctx.m_gstate.num_columns

/-- `t_ctxunit::has_deltas()` (context_unit.cpp:311-314). -/
def t_ctxunit.has_deltas (ctx : t_ctxunit) : Bool :=
  ctx.m_has_delta

/-- `t_ctxunit::clear_deltas()` (context_unit.cpp:333-336): resets only the
`m_has_delta` flag; `m_delta_pkeys` is untouched. -/
def t_ctxunit.clear_deltas (ctx : t_ctxunit) : t_ctxunit :=
  { ctx with m_has_delta := false }

/-- `t_ctxunit::add_delta_pkey(pkey)` (context_unit.cpp:306-309): inserts
into the hopscotch set; a key already present is not inserted again. -/
def t_ctxunit.add_delta_pkey (ctx : t_ctxunit) (pkey : t_tscalar) : t_ctxunit :=
  { ctx with m_delta_pkeys :=
      if pkey ∈ ctx.m_delta_pkeys then ctx.m_delta_pkeys
      else ctx.m_delta_pkeys ++ [pkey] }

/-- `t_ctxunit::get_delta_pkeys()` (context_unit.cpp:208-211). -/
def t_ctxunit.get_delta_pkeys (ctx : t_ctxunit) : List t_tscalar :=
  ctx.m_delta_pkeys

/-- The `std::copy` of the delta key set into the contiguous `pkey_vector`
inside `get_row_delta` (context_unit.cpp:195-199). -/
def t_ctxunit.delta_pkey_vector (ctx : t_ctxunit) : List t_tscalar :=
  ctx.get_delta_pkeys

/-- The sanitized extents struct `t_get_data_extents`. -/
structure t_get_data_extents where
  m_srow : Int
  m_erow : Int
  m_scol : Int
  m_ecol : Int

/-- Modelled from the spec: `sanitize_get_data_extents` is defined in
`get_data_extents.cpp`, which is not under `src/`.  Per the spec,
`get_data` ranges are "clamped/sanitized against current bounds
(out-of-range or inverted ranges are narrowed, never an error)": the start
of each range is clamped into `[0, count]` and the end into
`[start, count]`. -/
def sanitize_get_data_extents (nrows ncols : Nat)
    (start_row end_row start_col end_col : Int) : t_get_data_extents :=
  let srow := max 0 (min start_row (nrows : Int))
  let erow := max srow (min end_row (nrows : Int))
  let scol := max 0 (min start_col (ncols : Int))
  let ecol := max scol (min end_col (ncols : Int))
  ⟨srow, erow, scol, ecol⟩

/-- The per-cell normalization shared by all `get_data` overloads
(context_unit.cpp:100-101, 133-134, 159-160): an invalid cell is replaced
by the "none" scalar. -/
def normalize_cell (v : t_tscalar) : t_tscalar :=
  if v.is_valid then v else mknone

/-- `t_ctxunit::get_data(start_row, end_row, start_col, end_col)`
(context_unit.cpp:76-108).  The C++ fills a flat row-major vector of size
`num_rows * stride` column by column; we build the same row-major sequence
row by row.  `read_column(columns[cidx], start_row, end_row, out_data)`
followed by `out_data[ridx - ext.m_srow]` reads the cell of row
`start_row + (ridx - ext.m_srow)`, which the abstract `cell_by_row`
renders. -/
def t_ctxunit.get_data_range (ctx : t_ctxunit)
    (start_row end_row start_col end_col : Int) : List t_tscalar :=
  let ctx_nrows := ctx.get_row_count
  let ctx_ncols := ctx.get_column_count
  let ext := sanitize_get_data_extents ctx_nrows ctx_ncols
      start_row end_row start_col end_col
  let num_rows := (ext.m_erow - ext.m_srow).toNat
  let stride := (ext.m_ecol - ext.m_scol).toNat
  (List.range num_rows).flatMap (fun ridx =>
    (List.range stride).map (fun cidx =>
      let col := ctx.m_gstate.columns.getD (ext.m_scol.toNat + cidx) ""
      normalize_cell (ctx.m_gstate.cell_by_row col (start_row + ridx))))

/-- `t_ctxunit::get_data(const std::vector<t_uindex>& rows)`
(context_unit.cpp:117-141): row-major block over the given row indices and
all configured columns, with the same invalid-cell normalization. -/
def t_ctxunit.get_data_rows (ctx : t_ctxunit) (rows : List Nat) : List t_tscalar :=
  let stride := ctx.get_column_count
  rows.flatMap (fun r =>
    (List.range stride).map (fun cidx =>
      let col := ctx.m_gstate.columns.getD cidx ""
      normalize_cell (ctx.m_gstate.cell_by_row col (r : Int))))

/-- `t_ctxunit::get_data(const std::vector<t_tscalar>& pkeys)`
(context_unit.cpp:143-167): row-major block over the given primary keys
and all configured columns, with the same invalid-cell normalization. -/
def t_ctxunit.get_data_pkeys (ctx : t_ctxunit) (pkeys : List t_tscalar) :
    List t_tscalar :=
  let stride := ctx.get_column_count
  pkeys.flatMap (fun k =>
    (List.range stride).map (fun cidx =>
      let col := ctx.m_gstate.columns.getD cidx ""
      normalize_cell (ctx.m_gstate.cell_by_pkey col k)))

/-- `t_rowdelta` (constructed at context_unit.cpp:202).  The struct itself
is declared in a header not under `src/`; its three constructor arguments
are visible at the call site: the rows-changed flag, the number of changed
rows, and the fetched data block. -/
structure t_rowdelta where
  m_rows_changed : Bool
  m_num_rows_changed : Nat
  m_data : List t_tscalar
deriving DecidableEq

/-- `t_ctxunit::get_row_delta()` (context_unit.cpp:191-206): captures
`m_rows_changed`, copies the delta key set to a vector, fetches the data
via `get_data(pkey_vector)`, builds the `t_rowdelta`, then calls
`clear_deltas()`.  Returns the delta together with the post-call state. -/
def t_ctxunit.get_row_delta (ctx : t_ctxunit) : t_rowdelta × t_ctxunit :=
  let rows_changed := ctx.m_rows_changed
  let pkey_vector := ctx.delta_pkey_vector
  let data := ctx.get_data_pkeys pkey_vector
  let rval : t_rowdelta := ⟨rows_changed, pkey_vector.length, data⟩
  (rval, ctx.clear_deltas)

/-- Modelled from the spec: the numeric `t_op` encoding is declared in a
header that is not under `src/`; the spec's data model gives the operation
tag set {INSERT, UPDATE, DELETE}.  The `psp_op` column stores a `uint8_t`,
so tags are embedded as naturals; the concrete numerals only keep the
three tags distinct. -/
def OP_INSERT : Nat := 0

/-- Modelled from the spec: the DELETE operation tag (see `OP_INSERT`). -/
def OP_DELETE : Nat := 1

/-- Modelled from the spec: the UPDATE operation tag of the spec's data
model (see `OP_INSERT`); any tag value other than `OP_INSERT` and
`OP_DELETE` exercises the `default` branch of the `notify` switch. -/
def OP_UPDATE : Nat := 2

/-- One row of a flattened batch as read by `t_ctxunit::notify`: only the
`psp_pkey` and `psp_op` columns are consulted (context_unit.cpp:250-261);
the data columns of `flattened` and the auxiliary tables `delta`, `prev`,
`curr`, `transitions`, `existed` are never read by this context variant
and are omitted. -/
structure t_flat_row where
  pkey : t_tscalar
  op : Nat
deriving DecidableEq

/-- The row loop of the six-argument `t_ctxunit::notify`
(context_unit.cpp:258-274): for each row, intern the primary key, switch
on the operation tag (INSERT: nothing, DELETE: record that a delete was
encountered, anything else: `PSP_COMPLAIN_AND_ABORT`, i.e. `none`), then
add the interned key to the delta key set. -/
def notify_loop (ctx : t_ctxunit) (rows : List t_flat_row)
    (delete_encountered : Bool) : Option (t_ctxunit × Bool) :=
  match rows with
  | [] => some (ctx, delete_encountered)
  | r :: rest =>
    let pkey := ctx.m_symtable r.pkey
    if r.op = OP_INSERT then
      notify_loop (ctx.add_delta_pkey pkey) rest delete_encountered
    else if r.op = OP_DELETE then
      notify_loop (ctx.add_delta_pkey pkey) rest true
    else
      none

/-- The six-argument `t_ctxunit::notify(flattened, delta, prev, curr,
transitions, existed)` (context_unit.cpp:244-277): run the row loop, then
set `m_has_delta = m_delta_pkeys.size() > 0 || delete_encountered`.
`none` means the process aborted on an unexpected operation tag. -/
def t_ctxunit.notify_update (ctx : t_ctxunit) (flattened : List t_flat_row) :
    Option t_ctxunit :=
  match notify_loop ctx flattened false with
  | some (ctx', delete_encountered) =>
    some { ctx' with
             m_has_delta := decide (0 < ctx'.m_delta_pkeys.length) || delete_encountered }
  | none => none

/-- The one-argument `t_ctxunit::notify(flattened)` (context_unit.cpp:
285-299), used for the very first batch: set `m_has_delta = true`, then
add every row's interned primary key to the delta key set. -/
def t_ctxunit.notify_first (ctx : t_ctxunit) (flattened : List t_flat_row) :
    t_ctxunit :=
  flattened.foldl (fun c r => c.add_delta_pkey (c.m_symtable r.pkey))
    { ctx with m_has_delta := true }

/-- The chunk size constant of `WebSocketManager` (websocket.js:164). -/
def CHUNK_SIZE : Nat := 50 * 1000 * 1000

/-- `WebSocketManager._post_chunked(request, binary, start, end, length)`
(websocket.js:294-304): while `start < length`, send
`binary.slice(start, min(start + chunk_size, length))` and recurse with
`start` advanced past the sent chunk.  The start index is embedded as the
remaining suffix of the binary (a byte sequence is a `List Nat`); the
`chunk_size = 0` guard never fires at the source's constant
`this.chunk_size = 50 * 1000 * 1000` and only makes the recursion total. -/
def post_chunked (chunk_size : Nat) (binary : List Nat) : List (List Nat) :=
  if h : chunk_size = 0 ∨ binary = [] then []
  else binary.take chunk_size :: post_chunked chunk_size (binary.drop chunk_size)
termination_by binary.length
decreasing_by
  push_neg at h
  have hlen : 0 < binary.length := List.length_pos.mpr h.2
  simp only [List.length_drop]
  omega

/-- The chunk-reassembly state of `WebSocketClient` (websocket.js:21-23,
44-91): whether a binary is pending (`_pending_binary` is a message id in
the source; only its presence matters here), the declared
`_pending_binary_length` from the pre-message, the bytes accumulated so
far (`_full_binary` is preallocated at the declared length and filled by
`Uint8Array.set` at offset `_total_chunk_length`; since chunks arrive in
order this is the concatenation of the chunks received so far),
`_total_chunk_length`, and the list of binaries handed to `_handle`. -/
structure WebSocketClientState where
  pending_binary : Bool
  pending_binary_length : Nat
  total_chunk_length : Nat
  full_binary : List Nat
  handled : List (List Nat)
deriving DecidableEq

/-- The fresh reassembly state set up by the pre-message carrying
`binary_length` (websocket.js:99-113). -/
def client_expect_binary (binary_length : Nat) : WebSocketClientState :=
  { pending_binary := true
    pending_binary_length := binary_length
    total_chunk_length := 0
    full_binary := []
    handled := [] }

/-- One binary chunk arriving at the `WebSocketClient.onmessage` handler
while a binary is pending (websocket.js:44-91): append the chunk to the
accumulated buffer and advance `_total_chunk_length`; if the total now
equals the declared `_pending_binary_length`, hand the full binary to
`_handle` and reset the pending flags, otherwise keep waiting. -/
def client_on_chunk (st : WebSocketClientState) (chunk : List Nat) :
    WebSocketClientState :=
  let full := st.full_binary ++ chunk
  let total := st.total_chunk_length + chunk.length
  if total = st.pending_binary_length then
    { pending_binary := false
      pending_binary_length := 0
      total_chunk_length := 0
      full_binary := []
      handled := st.handled ++ [full] }
  else
    { st with full_binary := full, total_chunk_length := total }

/-- The client consuming a sequence of binary chunks in arrival order. -/
def client_run (st : WebSocketClientState) (chunks : List (List Nat)) :
    WebSocketClientState :=
  chunks.foldl client_on_chunk st

/-- `WebSocketManager._host(cache, name, input)` (websocket.js:306-314):
throw an "already exists" error if the name is taken, else register the
object under the name.  A cache is an association list from names to
hosted-object ids; the exception-or-mutation outcome is a pair of an
optional error message and the cache after the call (the source throws
before mutating, so on error the cache is returned unchanged; the
`on_delete` eject callback wiring is not modelled). -/
def _host (cache : List (String × Nat)) (name : String) (input : Nat) :
    Option String × List (String × Nat) :=
  if (cache.lookup name).isSome then
    (some ("\"" ++ name ++ "\" already exists"), cache)
  else
    (none, (name, input) :: cache)

/-- The two caches of a `WebSocketManager`: `this._tables` and
`this._views` (maintained by the `Server` superclass; only their
association-list content matters to the hosting claims). -/
structure WebSocketManagerState where
  _tables : List (String × Nat)
  _views : List (String × Nat)
deriving DecidableEq

/-- `WebSocketManager.host_table(name, table)` (websocket.js:324-326). -/
def WebSocketManagerState.host_table (m : WebSocketManagerState)
    (name : String) (table : Nat) : Option String × WebSocketManagerState :=
  let r := _host m._tables name table
  (r.1, { m with _tables := r.2 })

/-- `WebSocketManager.host_view(name, view)` (websocket.js:336-338). -/
def WebSocketManagerState.host_view (m : WebSocketManagerState)
    (name : String) (view : Nat) : Option String × WebSocketManagerState :=
  let r := _host m._views name view
  (r.1, { m with _views := r.2 })

/-- A concrete one-column, two-row master state used by concrete
instantiations below. -/
def gstate_ex : t_gstate :=
  { nrows := 2
    columns := ["value"]
    cell_by_row := fun _ _ => t_tscalar.value 0
    cell_by_pkey := fun _ _ => t_tscalar.value 0 }

/-- A concrete initialized context over `gstate_ex` with an empty delta
key set; the symbol table is the identity interning. -/
def ctx_ex : t_ctxunit :=
  { m_init := true
    m_has_delta := false
    m_rows_changed := false
    m_columns_changed := false
    m_delta_pkeys := []
    m_symtable := id
    m_gstate := gstate_ex }

/-- A master state whose every stored cell is the invalid sentinel. -/
def gstate_unset : t_gstate :=
  { nrows := 1
    columns := ["value"]
    cell_by_row := fun _ _ => t_tscalar.unset
    cell_by_pkey := fun _ _ => t_tscalar.unset }

/-- `ctx_ex` rebound to the all-invalid master state. -/
def ctx_unset : t_ctxunit :=
  { ctx_ex with m_gstate := gstate_unset }

/-- The context `ctx_ex` after the six-argument `notify` has processed a
single DELETE row for primary key `value 5`. -/
def ctx_ex_deleted : t_ctxunit :=
  { ctx_ex with
      m_has_delta := true
      m_delta_pkeys := [t_tscalar.value 5] }

/-- A concrete manager hosting one table named "n" and no views. -/
def manager_tbl : WebSocketManagerState :=
  { _tables := [("n", 1)], _views := [] }

/-- A concrete manager hosting one view named "n" and no tables. -/
def manager_vw : WebSocketManagerState :=
  { _tables := [], _views := [("n", 2)] }

/-! ## Helper lemmas -/

theorem mem_add_delta_pkey (ctx : t_ctxunit) (p k : t_tscalar) :
    k ∈ (ctx.add_delta_pkey p).m_delta_pkeys ↔ k ∈ ctx.m_delta_pkeys ∨ k = p := by
  unfold t_ctxunit.add_delta_pkey
  by_cases hp : p ∈ ctx.m_delta_pkeys
  · simp only [hp, if_true]
    constructor
    · exact Or.inl
    · rintro (h | rfl)
      · exact h
      · exact hp
  · simp [hp, List.mem_append]

theorem add_delta_pkey_nodup (ctx : t_ctxunit) (p : t_tscalar)
    (h : ctx.m_delta_pkeys.Nodup) : ((ctx.add_delta_pkey p).m_delta_pkeys).Nodup := by
  unfold t_ctxunit.add_delta_pkey
  by_cases hp : p ∈ ctx.m_delta_pkeys
  · simpa [hp] using h
  · simp [hp, List.nodup_append, h]

theorem foldl_add_nodup (adds : List t_tscalar) : ∀ ctx : t_ctxunit,
    ctx.m_delta_pkeys.Nodup →
    ((adds.foldl t_ctxunit.add_delta_pkey ctx).m_delta_pkeys).Nodup := by
  induction adds with
  | nil => intro ctx h; exact h
  | cons a t ih =>
    intro ctx h
    exact ih (ctx.add_delta_pkey a) (add_delta_pkey_nodup ctx a h)

theorem foldl_add_mem (adds : List t_tscalar) : ∀ (ctx : t_ctxunit) (k : t_tscalar),
    (k ∈ adds ∨ k ∈ ctx.m_delta_pkeys) →
    k ∈ (adds.foldl t_ctxunit.add_delta_pkey ctx).m_delta_pkeys := by
  induction adds with
  | nil => intro ctx k h; simpa using h
  | cons a t ih =>
    intro ctx k h
    refine ih (ctx.add_delta_pkey a) k ?_
    rcases h with h | h
    · rcases List.mem_cons.mp h with heq | h
      · exact Or.inr ((mem_add_delta_pkey ctx a k).mpr (Or.inr heq))
      · exact Or.inl h
    · exact Or.inr ((mem_add_delta_pkey ctx a k).mpr (Or.inl h))

theorem notify_loop_none_iff (rows : List t_flat_row) : ∀ (ctx : t_ctxunit) (de : Bool),
    notify_loop ctx rows de = none ↔
      ∃ r ∈ rows, r.op ≠ OP_INSERT ∧ r.op ≠ OP_DELETE := by
  induction rows with
  | nil => intro ctx de; simp [notify_loop]
  | cons a t ih =>
    intro ctx de
    unfold notify_loop
    by_cases h1 : a.op = OP_INSERT
    · rw [if_pos h1]
      simp [h1, ih]
    · by_cases h2 : a.op = OP_DELETE
      · rw [if_neg h1, if_pos h2]
        simp [h1, h2, ih]
      · rw [if_neg h1, if_neg h2]
        simp [h1, h2]

theorem notify_loop_some_mem (rows : List t_flat_row) :
    ∀ (ctx : t_ctxunit) (de : Bool) (ctx' : t_ctxunit) (de' : Bool),
    notify_loop ctx rows de = some (ctx', de') →
    ctx'.m_symtable = ctx.m_symtable ∧
    (∀ k, k ∈ ctx.m_delta_pkeys → k ∈ ctx'.m_delta_pkeys) ∧
    (∀ r ∈ rows, ctx.m_symtable r.pkey ∈ ctx'.m_delta_pkeys) := by
  induction rows with
  | nil =>
    intro ctx de ctx' de' h
    simp only [notify_loop, Option.some.injEq, Prod.mk.injEq] at h
    obtain ⟨rfl, rfl⟩ := h
    exact ⟨rfl, fun k hk => hk, fun r hr => absurd hr (List.not_mem_nil r)⟩
  | cons a t ih =>
    intro ctx de ctx' de' h
    unfold notify_loop at h
    by_cases h1 : a.op = OP_INSERT
    · rw [if_pos h1] at h
      obtain ⟨hsym, hmono, hall⟩ := ih (ctx.add_delta_pkey (ctx.m_symtable a.pkey)) de ctx' de' h
      refine ⟨hsym, ?_, ?_⟩
      · intro k hk
        exact hmono k ((mem_add_delta_pkey ctx _ k).mpr (Or.inl hk))
      · intro r hr
        rcases List.mem_cons.mp hr with rfl | hr
        · exact hmono _ ((mem_add_delta_pkey ctx _ _).mpr (Or.inr rfl))
        · exact hall r hr
    · by_cases h2 : a.op = OP_DELETE
      · rw [if_neg h1, if_pos h2] at h
        obtain ⟨hsym, hmono, hall⟩ := ih (ctx.add_delta_pkey (ctx.m_symtable a.pkey)) true ctx' de' h
        refine ⟨hsym, ?_, ?_⟩
        · intro k hk
          exact hmono k ((mem_add_delta_pkey ctx _ k).mpr (Or.inl hk))
        · intro r hr
          rcases List.mem_cons.mp hr with rfl | hr
          · exact hmono _ ((mem_add_delta_pkey ctx _ _).mpr (Or.inr rfl))
          · exact hall r hr
      · rw [if_neg h1, if_neg h2] at h
        simp at h

theorem notify_loop_de_mono (rows : List t_flat_row) :
    ∀ (ctx : t_ctxunit) (ctx' : t_ctxunit) (de' : Bool),
    notify_loop ctx rows true = some (ctx', de') → de' = true := by
  induction rows with
  | nil =>
    intro ctx ctx' de' h
    simp only [notify_loop, Option.some.injEq, Prod.mk.injEq] at h
    exact h.2.symm
  | cons a t ih =>
    intro ctx ctx' de' h
    unfold notify_loop at h
    by_cases h1 : a.op = OP_INSERT
    · rw [if_pos h1] at h
      exact ih _ ctx' de' h
    · by_cases h2 : a.op = OP_DELETE
      · rw [if_neg h1, if_pos h2] at h
        exact ih _ ctx' de' h
      · rw [if_neg h1, if_neg h2] at h
        simp at h

theorem notify_loop_delete_encountered (rows : List t_flat_row) :
    ∀ (ctx : t_ctxunit) (de : Bool) (ctx' : t_ctxunit) (de' : Bool),
    notify_loop ctx rows de = some (ctx', de') →
    (∃ r ∈ rows, r.op = OP_DELETE) → de' = true := by
  induction rows with
  | nil =>
    intro ctx de ctx' de' _ hd
    obtain ⟨r, hr, _⟩ := hd
    exact absurd hr (List.not_mem_nil r)
  | cons a t ih =>
    intro ctx de ctx' de' h hd
    unfold notify_loop at h
    by_cases h1 : a.op = OP_INSERT
    · rw [if_pos h1] at h
      obtain ⟨r, hr, hrop⟩ := hd
      rcases List.mem_cons.mp hr with rfl | hr
      · rw [h1] at hrop
        exact absurd hrop.symm (by decide)
      · exact ih _ de ctx' de' h ⟨r, hr, hrop⟩
    · by_cases h2 : a.op = OP_DELETE
      · rw [if_neg h1, if_pos h2] at h
        exact notify_loop_de_mono t _ ctx' de' h
      · rw [if_neg h1, if_neg h2] at h
        simp at h

theorem foldl_intern_add_symtable (rows : List t_flat_row) : ∀ c : t_ctxunit,
    (rows.foldl (fun c r => c.add_delta_pkey (c.m_symtable r.pkey)) c).m_symtable
      = c.m_symtable := by
  induction rows with
  | nil => intro c; rfl
  | cons a t ih => intro c; exact ih (c.add_delta_pkey (c.m_symtable a.pkey))

theorem foldl_intern_add_has_delta (rows : List t_flat_row) : ∀ c : t_ctxunit,
    (rows.foldl (fun c r => c.add_delta_pkey (c.m_symtable r.pkey)) c).m_has_delta
      = c.m_has_delta := by
  induction rows with
  | nil => intro c; rfl
  | cons a t ih => intro c; exact ih (c.add_delta_pkey (c.m_symtable a.pkey))

theorem foldl_intern_add_mono (rows : List t_flat_row) : ∀ (c : t_ctxunit) (k : t_tscalar),
    k ∈ c.m_delta_pkeys →
    k ∈ (rows.foldl (fun c r => c.add_delta_pkey (c.m_symtable r.pkey)) c).m_delta_pkeys := by
  induction rows with
  | nil => intro c k hk; exact hk
  | cons a t ih =>
    intro c k hk
    exact ih _ k ((mem_add_delta_pkey c _ k).mpr (Or.inl hk))

theorem foldl_intern_add_mem (rows : List t_flat_row) : ∀ c : t_ctxunit, ∀ r ∈ rows,
    c.m_symtable r.pkey ∈
      (rows.foldl (fun c r => c.add_delta_pkey (c.m_symtable r.pkey)) c).m_delta_pkeys := by
  induction rows with
  | nil => intro c r hr; exact absurd hr (List.not_mem_nil r)
  | cons a t ih =>
    intro c r hr
    rcases List.mem_cons.mp hr with rfl | hr
    · exact foldl_intern_add_mono t _ _ ((mem_add_delta_pkey c _ _).mpr (Or.inr rfl))
    · exact ih (c.add_delta_pkey (c.m_symtable a.pkey)) r hr

theorem length_range_flatMap_map {β : Type} (n m : Nat) (f : Nat → Nat → β) :
    ((List.range n).flatMap (fun r => (List.range m).map (f r))).length = n * m := by
  induction n with
  | zero => simp
  | succ n ih =>
    rw [List.range_succ, List.flatMap_append]
    simp [ih, Nat.succ_mul]

theorem normalize_cell_ok (v : t_tscalar) :
    ((normalize_cell v).is_valid = true ∨ normalize_cell v = mknone) ∧
    normalize_cell v ≠ t_tscalar.unset := by
  unfold normalize_cell
  cases v <;> simp [t_tscalar.is_valid, mknone]

theorem post_chunked_nil (cs : Nat) : post_chunked cs [] = [] := by
  unfold post_chunked
  simp

theorem post_chunked_cons (cs : Nat) (binary : List Nat)
    (hcs : cs ≠ 0) (hb : binary ≠ []) :
    post_chunked cs binary =
      binary.take cs :: post_chunked cs (binary.drop cs) := by
  rw [post_chunked]
  rw [dif_neg (by push_neg; exact ⟨hcs, hb⟩)]

theorem post_chunked_flatten (cs : Nat) (hcs : cs ≠ 0) :
    ∀ (n : Nat) (binary : List Nat), binary.length ≤ n →
    (post_chunked cs binary).flatten = binary := by
  intro n
  induction n with
  | zero =>
    intro b hb
    have hb0 : b = [] := List.length_eq_zero.mp (Nat.le_zero.mp hb)
    subst hb0
    simp [post_chunked_nil]
  | succ n ih =>
    intro b hb
    by_cases hb0 : b = []
    · subst hb0
      simp [post_chunked_nil]
    · have hlen : 0 < b.length := List.length_pos.mpr hb0
      rw [post_chunked_cons cs b hcs hb0]
      rw [List.flatten_cons]
      rw [ih (b.drop cs) (by rw [List.length_drop]; omega)]
      exact List.take_append_drop cs b

theorem post_chunked_sizes (cs : Nat) :
    ∀ (n : Nat) (binary : List Nat), binary.length ≤ n →
    ∀ c ∈ post_chunked cs binary, c.length ≤ cs := by
  intro n
  induction n with
  | zero =>
    intro b hb c hc
    have hb0 : b = [] := List.length_eq_zero.mp (Nat.le_zero.mp hb)
    subst hb0
    rw [post_chunked_nil] at hc
    exact absurd hc (List.not_mem_nil c)
  | succ n ih =>
    intro b hb c hc
    by_cases h : cs = 0 ∨ b = []
    · unfold post_chunked at hc
      rw [dif_pos h] at hc
      exact absurd hc (List.not_mem_nil c)
    · push_neg at h
      have hlen : 0 < b.length := List.length_pos.mpr h.2
      rw [post_chunked_cons cs b h.1 h.2] at hc
      rcases List.mem_cons.mp hc with heq | hc
      · subst heq
        exact List.length_take_le cs b
      · exact ih (b.drop cs) (by rw [List.length_drop]; omega) c hc

theorem client_run_nil (st : WebSocketClientState) : client_run st [] = st := rfl

theorem client_run_cons (st : WebSocketClientState) (c : List Nat)
    (t : List (List Nat)) :
    client_run st (c :: t) = client_run (client_on_chunk st c) t := rfl

theorem client_run_post_chunked (cs : Nat) (hcs : cs ≠ 0) :
    ∀ (n : Nat) (binary : List Nat), binary.length ≤ n → binary ≠ [] →
    ∀ (p : List Nat) (d : List (List Nat)),
    client_run
      { pending_binary := true, pending_binary_length := p.length + binary.length,
        total_chunk_length := p.length, full_binary := p, handled := d }
      (post_chunked cs binary) =
      { pending_binary := false, pending_binary_length := 0, total_chunk_length := 0,
        full_binary := [], handled := d ++ [p ++ binary] } := by
  intro n
  induction n with
  | zero =>
    intro b hb hne p d
    exact absurd (List.length_eq_zero.mp (Nat.le_zero.mp hb)) hne
  | succ n ih =>
    intro b hb hne p d
    have hlen : 0 < b.length := List.length_pos.mpr hne
    rw [post_chunked_cons cs b hcs hne, client_run_cons]
    by_cases hle : b.length ≤ cs
    · have htake : b.take cs = b := List.take_of_length_le hle
      have hdrop : b.drop cs = [] := List.drop_eq_nil_of_le hle
      rw [htake, hdrop, post_chunked_nil, client_run_nil]
      unfold client_on_chunk
      rw [if_pos rfl]
    · push_neg at hle
      have h1 : (b.take cs).length = cs := by rw [List.length_take]; omega
      have hcond : ¬ (p.length + (b.take cs).length = p.length + b.length) := by
        rw [h1]; omega
      have hstep :
          client_on_chunk
            { pending_binary := true, pending_binary_length := p.length + b.length,
              total_chunk_length := p.length, full_binary := p, handled := d }
            (b.take cs) =
          { pending_binary := true, pending_binary_length := p.length + b.length,
            total_chunk_length := p.length + (b.take cs).length,
            full_binary := p ++ b.take cs, handled := d } := by
        unfold client_on_chunk
        rw [if_neg hcond]
      rw [hstep]
      have ih2 := ih (b.drop cs) (by rw [List.length_drop]; omega)
        (List.length_pos.mp (by rw [List.length_drop]; omega))
        (p ++ b.take cs) d
      rw [List.length_append, h1, List.length_drop] at ih2
      have e : p.length + cs + (b.length - cs) = p.length + b.length := by omega
      rw [e, List.append_assoc, List.take_append_drop] at ih2
      rw [h1]
      exact ih2

theorem client_run_chunk_take (cs : Nat) (hcs : cs ≠ 0) :
    ∀ (n : Nat) (binary : List Nat), binary.length ≤ n → binary ≠ [] →
    ∀ (p : List Nat) (d : List (List Nat)) (k : Nat),
    k < (post_chunked cs binary).length →
    (client_run
      { pending_binary := true, pending_binary_length := p.length + binary.length,
        total_chunk_length := p.length, full_binary := p, handled := d }
      ((post_chunked cs binary).take k)).handled = d := by
  intro n
  induction n with
  | zero =>
    intro b hb hne
    exact absurd (List.length_eq_zero.mp (Nat.le_zero.mp hb)) hne
  | succ n ih =>
    intro b hb hne p d k hk
    have hlen : 0 < b.length := List.length_pos.mpr hne
    rw [post_chunked_cons cs b hcs hne] at hk ⊢
    cases k with
    | zero => rw [List.take_zero, client_run_nil]
    | succ k =>
      rw [List.take_succ_cons, client_run_cons]
      by_cases hle : b.length ≤ cs
      · exfalso
        rw [List.drop_eq_nil_of_le hle, post_chunked_nil] at hk
        simp at hk
      · push_neg at hle
        have h1 : (b.take cs).length = cs := by rw [List.length_take]; omega
        have hcond : ¬ (p.length + (b.take cs).length = p.length + b.length) := by
          rw [h1]; omega
        have hstep :
            client_on_chunk
              { pending_binary := true, pending_binary_length := p.length + b.length,
                total_chunk_length := p.length, full_binary := p, handled := d }
              (b.take cs) =
            { pending_binary := true, pending_binary_length := p.length + b.length,
              total_chunk_length := p.length + (b.take cs).length,
              full_binary := p ++ b.take cs, handled := d } := by
          unfold client_on_chunk
          rw [if_neg hcond]
        rw [hstep]
        have hk' : k < (post_chunked cs (b.drop cs)).length := by
          rw [List.length_cons] at hk
          omega
        have ih2 := ih (b.drop cs) (by rw [List.length_drop]; omega)
          (List.length_pos.mp (by rw [List.length_drop]; omega))
          (p ++ b.take cs) d k hk'
        rw [List.length_append, h1, List.length_drop] at ih2
        have e : p.length + cs + (b.length - cs) = p.length + b.length := by omega
        rw [e] at ih2
        rw [h1]
        exact ih2

/-! ## Claim theorems -/

/-- C1 (counterexample): after `get_row_delta()` the Delta Key Set is NOT
cleared, so a second call with no intervening `notify` does not return an
empty delta.  Concretely: notify one inserted key into `ctx_ex`, call
`get_row_delta` twice; the state after the first call still holds the key
and the second delta reports 1 changed row, not 0. -/
theorem get_row_delta_second_call_nonempty :
    ((ctx_ex.notify_first [⟨t_tscalar.value 7, OP_INSERT⟩]).get_row_delta.2).m_delta_pkeys
        = [t_tscalar.value 7] ∧
    (((ctx_ex.notify_first [⟨t_tscalar.value 7, OP_INSERT⟩]).get_row_delta.2).get_row_delta).1.m_num_rows_changed
        = 1 :=
  ⟨rfl, rfl⟩

/-- C1 (amended): `get_row_delta()` builds the delta from the current
rows-changed flag and a copy of the Delta Key Set (row data fetched via
`get_data` over those keys), and afterwards clears ONLY the has-delta
flag; the Delta Key Set is left in place (it is cleared by the next
`step_begin`), so a second call with no intervening `notify` returns the
very same delta again (same rows-changed flag, same row count, same
data), not an empty one. -/
theorem get_row_delta_snapshot_clears_flag_only (ctx : t_ctxunit) :
    (ctx.get_row_delta).1.m_rows_changed = ctx.m_rows_changed ∧
    (ctx.get_row_delta).1.m_num_rows_changed = ctx.delta_pkey_vector.length ∧
    (ctx.get_row_delta).1.m_data = ctx.get_data_pkeys ctx.delta_pkey_vector ∧
    (ctx.get_row_delta).2.has_deltas = false ∧
    (ctx.get_row_delta).2.m_delta_pkeys = ctx.m_delta_pkeys ∧
    ((ctx.get_row_delta).2.get_row_delta).1 = (ctx.get_row_delta).1 :=
  ⟨rfl, rfl, rfl, rfl, rfl, rfl⟩

/-- C2 (counterexample): a flattened row whose operation tag is the spec's
UPDATE tag is not classified and processed — it hits the `default` branch
of the switch and the call aborts (modelled as `none`), contrary to the
claim that INSERT, UPDATE and DELETE are all accepted. -/
theorem notify_update_aborts_on_update_tag :
    ctx_ex.notify_update [⟨t_tscalar.value 3, OP_UPDATE⟩] = none :=
  rfl

/-- C2 (amended): for every row of the flattened table passed to the
richer `notify`, the context resolves the row's interned primary key and
adds it to the Delta Key Set, classifying the operation tag as INSERT or
DELETE only; the call aborts the process exactly when some row carries any
other tag (including the spec's UPDATE tag). -/
theorem notify_update_classification (ctx : t_ctxunit) (rows : List t_flat_row) :
    (ctx.notify_update rows = none ↔
       ∃ r ∈ rows, r.op ≠ OP_INSERT ∧ r.op ≠ OP_DELETE) ∧
    (∀ ctx', ctx.notify_update rows = some ctx' →
       ∀ r ∈ rows, ctx.m_symtable r.pkey ∈ ctx'.m_delta_pkeys) := by
  constructor
  · unfold t_ctxunit.notify_update
    cases hl : notify_loop ctx rows false with
    | none => simpa using (notify_loop_none_iff rows ctx false).mp hl
    | some p =>
      simp only [Option.some.injEq]
      constructor
      · intro h
        exact absurd h (by simp)
      · intro hbad
        exact absurd ((notify_loop_none_iff rows ctx false).mpr hbad) (by simp [hl])
  · intro ctx' h r hr
    unfold t_ctxunit.notify_update at h
    cases hl : notify_loop ctx rows false with
    | none => rw [hl] at h; cases h
    | some p =>
      rw [hl] at h
      obtain ⟨c1, de⟩ := p
      obtain ⟨-, -, hall⟩ := notify_loop_some_mem rows ctx false c1 de hl
      simp only [Option.some.injEq] at h
      subst h
      exact hall r hr

/-- C2 (witness): applying the classification theorem at a concrete
abort-free input: a single INSERT row is accepted and its key tracked. -/
theorem notify_update_classification_witness :
    ctx_ex.notify_update [⟨t_tscalar.value 9, OP_UPDATE⟩] = none ∧
    t_tscalar.value 1 ∈
      ({ ctx_ex with m_has_delta := true, m_delta_pkeys := [t_tscalar.value 1] } : t_ctxunit).m_delta_pkeys := by
  have h := notify_update_classification ctx_ex [⟨t_tscalar.value 9, OP_UPDATE⟩]
  have h2 := notify_update_classification ctx_ex [⟨t_tscalar.value 1, OP_INSERT⟩]
  refine ⟨h.1.mpr ⟨⟨t_tscalar.value 9, OP_UPDATE⟩, by simp, by decide, by decide⟩, ?_⟩
  exact h2.2 _ rfl ⟨t_tscalar.value 1, OP_INSERT⟩ (by simp)

/-- C3: if the richer `notify` processes a batch containing at least one
DELETE-tagged row (and does not abort), `has_deltas()` is true afterwards,
whatever the Delta Key Set held. -/
theorem notify_update_delete_forces_has_deltas (ctx : t_ctxunit)
    (rows : List t_flat_row) (ctx' : t_ctxunit)
    (h : ctx.notify_update rows = some ctx')
    (hd : ∃ r ∈ rows, r.op = OP_DELETE) :
    ctx'.has_deltas = true := by
  unfold t_ctxunit.notify_update at h
  cases hl : notify_loop ctx rows false with
  | none => rw [hl] at h; cases h
  | some p =>
    rw [hl] at h
    obtain ⟨c1, de⟩ := p
    have hde : de = true := notify_loop_delete_encountered rows ctx false c1 de hl hd
    simp only [Option.some.injEq] at h
    subst h
    simp [t_ctxunit.has_deltas, hde]

/-- C3 (witness): a concrete one-row DELETE batch against `ctx_ex`. -/
theorem notify_update_delete_forces_has_deltas_witness :
    ctx_ex_deleted.has_deltas = true :=
  notify_update_delete_forces_has_deltas ctx_ex
    [⟨t_tscalar.value 5, OP_DELETE⟩] ctx_ex_deleted rfl
    ⟨⟨t_tscalar.value 5, OP_DELETE⟩, by simp, rfl⟩

/-- C4: the one-argument (first-batch) `notify` adds every row's interned
primary key to the Delta Key Set and leaves `has_deltas()` true
unconditionally — also for an empty flattened table. -/
theorem notify_first_spec (ctx : t_ctxunit) (rows : List t_flat_row) :
    (ctx.notify_first rows).has_deltas = true ∧
    ∀ r ∈ rows, ctx.m_symtable r.pkey ∈ (ctx.notify_first rows).m_delta_pkeys := by
  constructor
  · unfold t_ctxunit.notify_first t_ctxunit.has_deltas
    rw [foldl_intern_add_has_delta]
  · intro r hr
    exact foldl_intern_add_mem rows _ r hr

/-- C4 (witness): a concrete one-row first batch against `ctx_ex`. -/
theorem notify_first_spec_witness :
    (ctx_ex.notify_first [⟨t_tscalar.value 2, OP_INSERT⟩]).has_deltas = true ∧
    t_tscalar.value 2 ∈ (ctx_ex.notify_first [⟨t_tscalar.value 2, OP_INSERT⟩]).m_delta_pkeys := by
  have h := notify_first_spec ctx_ex [⟨t_tscalar.value 2, OP_INSERT⟩]
  exact ⟨h.1, h.2 ⟨t_tscalar.value 2, OP_INSERT⟩ (by simp)⟩

/-- C7: the Delta Key Set collapses duplicates.  Starting from any context
whose set representation is duplicate-free, after any sequence of
`add_delta_pkey` insertions (in any order, with any repetitions) a key
that was inserted — once or many times — appears exactly once in the key
vector that `get_row_delta()` copies out of the set. -/
theorem delta_pkey_vector_counts_once (ctx : t_ctxunit)
    (adds : List t_tscalar) (k : t_tscalar)
    (hnd : ctx.m_delta_pkeys.Nodup)
    (hk : k ∈ adds ∨ k ∈ ctx.m_delta_pkeys) :
    ((adds.foldl t_ctxunit.add_delta_pkey ctx).delta_pkey_vector).count k = 1 :=
  List.count_eq_one_of_mem
    (foldl_add_nodup adds ctx hnd)
    (foldl_add_mem adds ctx k hk)

/-- C7 (witness): inserting the same key twice into the empty set of
`ctx_ex` leaves exactly one occurrence in the copied key vector. -/
theorem delta_pkey_vector_counts_once_witness :
    (([t_tscalar.value 4, t_tscalar.value 4].foldl
        t_ctxunit.add_delta_pkey ctx_ex).delta_pkey_vector).count (t_tscalar.value 4) = 1 :=
  delta_pkey_vector_counts_once ctx_ex
    [t_tscalar.value 4, t_tscalar.value 4] (t_tscalar.value 4)
    (by simp [ctx_ex]) (Or.inl (by simp))

/-- C10: `step_begin()` empties the Delta Key Set and resets the
rows-changed and columns-changed flags when the context is initialized,
leaves `has_deltas()` unchanged either way, and changes nothing at all
when `init()` was never called. -/
theorem step_begin_frame (ctx : t_ctxunit) :
    (ctx.step_begin).has_deltas = ctx.has_deltas ∧
    ctx.step_begin =
      (if ctx.m_init = true then
        { ctx with
            m_delta_pkeys := [],
            m_rows_changed := false,
            m_columns_changed := false }
       else ctx) := by
  unfold t_ctxunit.step_begin t_ctxunit.has_deltas
  cases h : ctx.m_init <;> simp [h]

/-- C5: the range `get_data` never signals an error (it is a total
function) and its extents are sanitized against the current row and
column counts: for every argument tuple — negative, inverted or
beyond-bounds included — the sanitized row dimension lies in
`[0, row count]`, the sanitized column dimension lies in
`[0, column count]`, and the returned block is exactly
`row dimension * column dimension` cells. -/
theorem get_data_range_sanitized_dims (ctx : t_ctxunit)
    (start_row end_row start_col end_col : Int) :
    ((sanitize_get_data_extents ctx.get_row_count ctx.get_column_count
        start_row end_row start_col end_col).m_erow -
     (sanitize_get_data_extents ctx.get_row_count ctx.get_column_count
        start_row end_row start_col end_col).m_srow).toNat ≤ ctx.get_row_count ∧
    ((sanitize_get_data_extents ctx.get_row_count ctx.get_column_count
        start_row end_row start_col end_col).m_ecol -
     (sanitize_get_data_extents ctx.get_row_count ctx.get_column_count
        start_row end_row start_col end_col).m_scol).toNat ≤ ctx.get_column_count ∧
    (ctx.get_data_range start_row end_row start_col end_col).length =
      ((sanitize_get_data_extents ctx.get_row_count ctx.get_column_count
          start_row end_row start_col end_col).m_erow -
       (sanitize_get_data_extents ctx.get_row_count ctx.get_column_count
          start_row end_row start_col end_col).m_srow).toNat *
      ((sanitize_get_data_extents ctx.get_row_count ctx.get_column_count
          start_row end_row start_col end_col).m_ecol -
       (sanitize_get_data_extents ctx.get_row_count ctx.get_column_count
          start_row end_row start_col end_col).m_scol).toNat := by
  refine ⟨?_, ?_, ?_⟩
  · simp only [sanitize_get_data_extents]
    omega
  · simp only [sanitize_get_data_extents]
    omega
  · unfold t_ctxunit.get_data_range
    exact length_range_flatMap_map _ _ _

/-- C6: every cell of the block returned by any of the three `get_data`
overloads (range form, row-index form, primary-key form) is either a
valid stored value or the "none" scalar that replaced an invalid one;
the raw invalid/unset sentinel never appears in a returned block. -/
theorem get_data_cells_normalized (ctx : t_ctxunit) :
    (∀ (start_row end_row start_col end_col : Int) (cell : t_tscalar),
        cell ∈ ctx.get_data_range start_row end_row start_col end_col →
        (cell.is_valid = true ∨ cell = mknone) ∧ cell ≠ t_tscalar.unset) ∧
    (∀ (rows : List Nat) (cell : t_tscalar),
        cell ∈ ctx.get_data_rows rows →
        (cell.is_valid = true ∨ cell = mknone) ∧ cell ≠ t_tscalar.unset) ∧
    (∀ (pkeys : List t_tscalar) (cell : t_tscalar),
        cell ∈ ctx.get_data_pkeys pkeys →
        (cell.is_valid = true ∨ cell = mknone) ∧ cell ≠ t_tscalar.unset) := by
  refine ⟨?_, ?_, ?_⟩
  · intro sr er sc ec cell hcell
    unfold t_ctxunit.get_data_range at hcell
    simp only [List.mem_flatMap, List.mem_map, List.mem_range] at hcell
    obtain ⟨r, -, c, -, rfl⟩ := hcell
    exact normalize_cell_ok _
  · intro rows cell hcell
    unfold t_ctxunit.get_data_rows at hcell
    simp only [List.mem_flatMap, List.mem_map, List.mem_range] at hcell
    obtain ⟨r, -, c, -, rfl⟩ := hcell
    exact normalize_cell_ok _
  · intro pkeys cell hcell
    unfold t_ctxunit.get_data_pkeys at hcell
    simp only [List.mem_flatMap, List.mem_map, List.mem_range] at hcell
    obtain ⟨r, -, c, -, rfl⟩ := hcell
    exact normalize_cell_ok _

/-- C6 (witness): in a context whose every stored cell is the invalid
sentinel, the cell that comes back from the row-index `get_data` is the
"none" scalar, and the theorem applies to it. -/
theorem get_data_cells_normalized_witness :
    ((mknone : t_tscalar).is_valid = true ∨ (mknone : t_tscalar) = mknone) ∧
    (mknone : t_tscalar) ≠ t_tscalar.unset :=
  (get_data_cells_normalized ctx_unset).2.1 [0] mknone (by decide)

/-- C8: round-trip of the chunked binary transport.  For every non-empty
binary payload posted with a declared `binary_length` and a positive chunk
size, `_post_chunked` emits chunks of at most `chunk_size` bytes whose
concatenation is exactly the original binary; the receiving client hands
its message handler the reassembled binary exactly once — at the moment
the accumulated chunk length reaches the declared length — and no proper
initial part of the chunk stream causes any (partial) delivery. -/
theorem chunked_binary_round_trip (cs : Nat) (binary : List Nat)
    (hcs : 0 < cs) (hb : binary ≠ []) :
    (post_chunked cs binary).flatten = binary ∧
    (∀ c ∈ post_chunked cs binary, c.length ≤ cs) ∧
    client_run (client_expect_binary binary.length) (post_chunked cs binary) =
      { pending_binary := false, pending_binary_length := 0,
        total_chunk_length := 0, full_binary := [], handled := [binary] } ∧
    (∀ k, k < (post_chunked cs binary).length →
        (client_run (client_expect_binary binary.length)
          ((post_chunked cs binary).take k)).handled = []) := by
  have hcs' : cs ≠ 0 := Nat.pos_iff_ne_zero.mp hcs
  refine ⟨post_chunked_flatten cs hcs' binary.length binary le_rfl,
          post_chunked_sizes cs binary.length binary le_rfl, ?_, ?_⟩
  · have h := client_run_post_chunked cs hcs' binary.length binary le_rfl hb [] []
    simpa [client_expect_binary] using h
  · intro k hk
    have h := client_run_chunk_take cs hcs' binary.length binary le_rfl hb [] [] k hk
    simpa [client_expect_binary] using h

/-- C8 (witness): a 3-byte binary with chunk size 2: the two chunks
reassemble to the original and the handler fires exactly once. -/
theorem chunked_binary_round_trip_witness :
    (post_chunked 2 [1, 2, 3]).flatten = [1, 2, 3] ∧
    (client_run (client_expect_binary 3) (post_chunked 2 [1, 2, 3])).handled
      = [[1, 2, 3]] := by
  have h := chunked_binary_round_trip 2 [1, 2, 3] (by decide) (by decide)
  exact ⟨h.1, congrArg WebSocketClientState.handled h.2.2.1⟩

/-- C9: for every manager state and name, hosting a table under a name
already registered in the table cache — and, independently, hosting a
view under a name already registered in the view cache — fails with the
distinct "already exists" error, and the failing call leaves the manager
unchanged: the previously hosted object under that name is neither
replaced nor removed. -/
theorem host_duplicate_name_rejected (m : WebSocketManagerState)
    (name : String) (table view : Nat) :
    ((m._tables.lookup name).isSome = true →
      m.host_table name table = (some ("\"" ++ name ++ "\" already exists"), m)) ∧
    ((m._views.lookup name).isSome = true →
      m.host_view name view = (some ("\"" ++ name ++ "\" already exists"), m)) := by
  constructor
  · intro ht
    unfold WebSocketManagerState.host_table _host
    rw [if_pos ht]
  · intro hv
    unfold WebSocketManagerState.host_view _host
    rw [if_pos hv]

/-- C9 (witness): re-hosting a table under the name "n" taken only in the
table cache, and a view under the name "n" taken only in the view cache,
each errors and leaves the respective concrete manager intact. -/
theorem host_duplicate_name_rejected_witness :
    manager_tbl.host_table "n" 3 = (some "\"n\" already exists", manager_tbl) ∧
    manager_vw.host_view "n" 4 = (some "\"n\" already exists", manager_vw) :=
  ⟨(host_duplicate_name_rejected manager_tbl "n" 3 4).1 (by decide),
   (host_duplicate_name_rejected manager_vw "n" 3 4).2 (by decide)⟩

end Perspective
